import Mathlib

/-!
Shallow embedding of the core analysis pipeline of
polygon_analyzer.py from the Market-Signals repository: Wilder RSI,
signal triggers and trade-date resolution, session alignment, the
overnight vs intraday return decomposition and its multi-day variant,
gap-pattern classification, the 5-minute entry-timing search, and their
aggregation; followed by theorems checking spec claims C1 to C10
against these definitions.

Modelling conventions: prices and returns are exact rationals; dates
and intraday times-of-day are naturals (a time is minutes since
midnight, so the source's "09:30" is 570 and "15:50" is 950). The
pandas special values that the source relies on are modelled
explicitly: a series entry that would be NaN (an indicator before its
warm-up, or a 0/0 ratio) is Option.none, and the RSI produced by a zero
average loss together with a positive average gain is 100, matching the
floating-point evaluation 100 - 100 / (1 + inf) in the source; a
comparison against NaN is false, as in pandas.
-/

namespace MarketSignals

/-- A row of a daily price table (load_daily): its date and close. -/
structure DailyRow where
  date : ℕ
  close : ℚ
  deriving DecidableEq

/-- An intraday bar (load_intraday): date, time-of-day in minutes, open, close. -/
structure Bar where
  date : ℕ
  time : ℕ
  open_ : ℚ
  close : ℚ
  deriving DecidableEq

/-! ## Wilder RSI (calculate_rsi_wilder)

The source computes delta = prices.diff(), gain = delta.where(delta > 0, 0),
loss = -delta.where(delta < 0, 0), smooths both with
ewm(alpha = 1/period, min_periods = period, adjust = False).mean(), and
returns 100 - 100 / (1 + avg_gain / avg_loss). The first diff entry is NaN,
which the where-calls replace by 0, so the recursive average starts at 0 at
index 0 and the first defined output index is period - 1. -/

/-- Tail of the gain series: entry for price p given the previous price prev
is p - prev clamped below at 0. -/
def gainsAux (prev : ℚ) : List ℚ → List ℚ
  | [] => []
  | p :: rest => (if prev < p then p - prev else 0) :: gainsAux p rest

/-- Gain series of a price list; index 0 (the NaN diff) is 0. -/
def gains : List ℚ → List ℚ
  | [] => []
  | p :: rest => 0 :: gainsAux p rest

/-- Tail of the loss series: entry for price p given the previous price prev
is prev - p clamped below at 0. -/
def lossesAux (prev : ℚ) : List ℚ → List ℚ
  | [] => []
  | p :: rest => (if p < prev then prev - p else 0) :: lossesAux p rest

/-- Loss series of a price list; index 0 (the NaN diff) is 0. -/
def losses : List ℚ → List ℚ
  | [] => []
  | p :: rest => 0 :: lossesAux p rest

/-- Running exponential average with adjust = False carrying accumulator acc:
the output entry at a position is the accumulator after absorbing the input
entry there. -/
def ewmAux (a : ℚ) (acc : ℚ) : List ℚ → List ℚ
  | [] => [acc]
  | x :: rest => acc :: ewmAux a ((1 - a) * acc + a * x) rest

/-- Exponential weighted mean of a list, alpha = a, adjust = False: the first
entry seeds the recursion. -/
def ewmList (a : ℚ) : List ℚ → List ℚ
  | [] => []
  | x :: rest => ewmAux a x rest

/-- The smoothed average gain series entry at index i:
gain.ewm(alpha = 1/period, adjust = False).mean(). -/
def avg_gain (prices : List ℚ) (period i : ℕ) : ℚ :=
  (ewmList (1 / (period : ℚ)) (gains prices)).getD i 0

/-- The smoothed average loss series entry at index i:
loss.ewm(alpha = 1/period, adjust = False).mean(). -/
def avg_loss (prices : List ℚ) (period i : ℕ) : ℚ :=
  (ewmList (1 / (period : ℚ)) (losses prices)).getD i 0

/-- Wilder RSI of a close-price list at index i: none before the min_periods
warm-up or out of range; with a zero average loss the source's float division
yields +inf (RSI exactly 100) when the average gain is positive and NaN
(modelled none) when it is 0. -/
def calculate_rsi_wilder (prices : List ℚ) (period i : ℕ) : Option ℚ :=
  if i + 1 < period ∨ prices.length ≤ i then none
  else if avg_loss prices period i = 0 then
    (if avg_gain prices period i = 0 then none else some 100)
  else some (100 - 100 / (1 + avg_gain prices period i / avg_loss prices period i))

/-! ## Tables, sessions and calendar resolution -/

/-- Date column of a daily table. -/
def tableDates (t : List DailyRow) : List ℕ := t.map (·.date)

/-- RSI(10) column of a daily table at row index i, as in load_daily. -/
def tableRSI10 (t : List DailyRow) (i : ℕ) : Option ℚ :=
  calculate_rsi_wilder (t.map (·.close)) 10 i

/-- Comparison of a possibly-NaN series entry with a constant: NaN compares
false, as in pandas. -/
def optGT (x : Option ℚ) (c : ℚ) : Bool :=
  match x with
  | some v => decide (c < v)
  | none => false

/-- Comparison of a possibly-NaN series entry with a constant: NaN compares
false, as in pandas. -/
def optLT (x : Option ℚ) (c : ℚ) : Bool :=
  match x with
  | some v => decide (v < c)
  | none => false

/-- The source's trade-date lookup df[df[Date] > d].index with the first hit
taken: the first entry of the reference series strictly after d, none when no
entry is after d. -/
def resolveTradeDate (d : ℕ) (ref : List ℕ) : Option ℕ :=
  ref.find? (fun x => decide (d < x))

/-- Normalisation sorted(set(trade_dates)) applied by the analyses before
processing, and the sorted distinct keys a pandas groupby iterates. -/
def sortedDistinct (l : List ℕ) : List ℕ :=
  l.dedup.insertionSort (· ≤ ·)

/-- Bars of one session: the intraday rows on the given date, ordered by
time-of-day (sort_values on time). -/
def sessionBars (intraday : List Bar) (d : ℕ) : List Bar :=
  (intraday.filter (fun b => decide (b.date = d))).insertionSort (fun a b => a.time ≤ b.time)

/-- Last daily row dated strictly before the trade date:
daily[daily[date_key] < td].tail(1), the cross-resolution prev-close lookup. -/
def prevDailyRow (daily : List DailyRow) (td : ℕ) : Option DailyRow :=
  (daily.filter (fun r => decide (r.date < td))).getLast?

/-! ## Return decomposition (analyze_overnight_vs_intraday) -/

/-- One per-date decomposition row of analyze_overnight_vs_intraday. -/
structure ONRow where
  date : ℕ
  overnight_pct : ℚ
  intraday_pct : ℚ
  total_pct : ℚ
  deriving DecidableEq

/-- Per-date return triple from source prices, in percent:
overnight = (today_open / prev_close - 1) * 100,
intraday = (today_close / today_open - 1) * 100,
total = (today_close / prev_close - 1) * 100, all three negated uniformly
when the signal direction is short. -/
def decompose (prev_close today_open today_close : ℚ) (short : Bool) : ℚ × ℚ × ℚ :=
  let overnight := (today_open / prev_close - 1) * 100
  let intraday_ret := (today_close / today_open - 1) * 100
  let total := (today_close / prev_close - 1) * 100
  if short then (-overnight, -intraday_ret, -total)
  else (overnight, intraday_ret, total)

/-- Decomposition of one trade date: none when the date has no intraday bars
or no earlier daily row; today's open and close come from the first and last
session bars, prev close from the daily table. -/
def decomposeDate (daily : List DailyRow) (intraday : List Bar) (short : Bool)
    (td : ℕ) : Option ONRow :=
  match (sessionBars intraday td).head?, (sessionBars intraday td).getLast?,
      prevDailyRow daily td with
  | some fb, some lb, some prev =>
    let r := decompose prev.close fb.open_ lb.close short
    some ⟨td, r.1, r.2.1, r.2.2⟩
  | _, _, _ => none

/-- Per-date result rows of analyze_overnight_vs_intraday: the trade dates
are deduplicated and sorted, dates with missing data are skipped. -/
def onRows (daily : List DailyRow) (intraday : List Bar) (short : Bool)
    (trade_dates : List ℕ) : List ONRow :=
  (sortedDistinct trade_dates).filterMap (decomposeDate daily intraday short)

/-- Mean of a list of rationals (a pandas mean; the empty mean, never read by
the source on this path, is 0/0 = 0). -/
def mean (xs : List ℚ) : ℚ := xs.sum / (xs.length : ℚ)

/-- Contribution percentages (overnight, intraday) of the single-day
aggregate: mean(component) / mean(total) * 100, with the source's 50/50
fallback when the mean total return is zero. -/
def contributions (rows : List ONRow) : ℚ × ℚ :=
  let avg_on := mean (rows.map (·.overnight_pct))
  let avg_id := mean (rows.map (·.intraday_pct))
  let avg_total := mean (rows.map (·.total_pct))
  if avg_total = 0 then (50, 50)
  else (avg_on / avg_total * 100, avg_id / avg_total * 100)

/-! ## Multi-day cumulative decomposition -/

/-- Date column of the daily table, as the list daily_dates. -/
def dailyDates (daily : List DailyRow) : List ℕ := daily.map (·.date)

/-- Close of the first daily row carrying the given date
(daily[daily[date_key] == d].iloc[0][Close]; the callers only look up dates
present in the table, so the default is never read). -/
def lookupClose (daily : List DailyRow) (d : ℕ) : ℚ :=
  match daily.find? (fun r => decide (r.date = d)) with
  | some r => r.close
  | none => 0

/-- Contribution of one walked position idx of the daily table to the
cumulative sums: (overnight increment, intraday increment), or (0, 0) when
the date has no intraday bars (the loop's continue). The previous close is
the daily close at idx - 1, or the day's own open at idx = 0. -/
def dayContrib (daily : List DailyRow) (intraday : List Bar) (short : Bool)
    (idx : ℕ) : ℚ × ℚ :=
  let check_date := (dailyDates daily).getD idx 0
  match (sessionBars intraday check_date).head?, (sessionBars intraday check_date).getLast? with
  | some fb, some lb =>
    let day_open := fb.open_
    let day_close := lb.close
    let p_close := if 0 < idx then lookupClose daily ((dailyDates daily).getD (idx - 1) 0)
      else day_open
    let s : ℚ := if short then -1 else 1
    ((day_open / p_close - 1) * 100 * s, (day_close / day_open - 1) * 100 * s)
  | _, _ => (0, 0)

/-- Positions walked for holding period H starting at td_idx: the loop breaks
at the first index at or past the end of the daily table. -/
def holdIndices (td_idx H len : ℕ) : List ℕ :=
  ((List.range H).map (fun d => td_idx + d)).takeWhile (fun i => decide (i < len))

/-- The (cum_on, cum_id, cum_on + cum_id) entry appended for one trade date
in the multi-day loop. -/
def multiDayEntry (daily : List DailyRow) (intraday : List Bar) (short : Bool)
    (td_idx H : ℕ) : ℚ × ℚ × ℚ :=
  let contribs := (holdIndices td_idx H daily.length).map (dayContrib daily intraday short)
  let cum_on := (contribs.map Prod.fst).sum
  let cum_id := (contribs.map Prod.snd).sum
  (cum_on, cum_id, cum_on + cum_id)

/-- Multi-day cumulative entries for holding period H over the single-day
result rows: rows whose date is absent from the daily table are skipped; each
remaining row contributes one entry starting at its index in daily_dates. -/
def multiDayRows (daily : List DailyRow) (intraday : List Bar) (short : Bool)
    (rows : List ONRow) (H : ℕ) : List (ℚ × ℚ × ℚ) :=
  rows.filterMap (fun r =>
    if r.date ∈ dailyDates daily then
      some (multiDayEntry daily intraday short ((dailyDates daily).indexOf r.date) H)
    else none)

/-! ## Gap-pattern classification (analyze_gap_patterns) -/

/-- The four gap patterns. -/
inductive GapPattern
  | GapDownReverseUp
  | GapDownContinueDown
  | GapUpContinueUp
  | GapUpReverseDown
  deriving DecidableEq

/-- Sign-pair classification of a trade date from its gap (overnight) and
intraday percentages; the final else branch of the source catches
gap >= 0 with intraday <= 0. -/
def classifyGap (gap_pct intraday_pct : ℚ) : GapPattern :=
  if gap_pct < 0 ∧ 0 < intraday_pct then .GapDownReverseUp
  else if gap_pct < 0 ∧ intraday_pct ≤ 0 then .GapDownContinueDown
  else if 0 ≤ gap_pct ∧ 0 < intraday_pct then .GapUpContinueUp
  else .GapUpReverseDown

/-- One per-date row of analyze_gap_patterns. -/
structure GapRow where
  date : ℕ
  pattern : GapPattern
  gap_pct : ℚ
  intraday_pct : ℚ
  total_pct : ℚ
  deriving DecidableEq

/-- Gap-pattern row of one trade date: none when the date has no intraday
bars or no earlier daily row; returns are not direction-adjusted here. -/
def gapRowForDate (daily : List DailyRow) (intraday : List Bar) (td : ℕ) :
    Option GapRow :=
  match (sessionBars intraday td).head?, (sessionBars intraday td).getLast?,
      prevDailyRow daily td with
  | some fb, some lb, some prev =>
    let gap_pct := (fb.open_ / prev.close - 1) * 100
    let intraday_pct := (lb.close / fb.open_ - 1) * 100
    let total := (lb.close / prev.close - 1) * 100
    some ⟨td, classifyGap gap_pct intraday_pct, gap_pct, intraday_pct, total⟩
  | _, _, _ => none

/-- Per-date rows of analyze_gap_patterns over deduplicated sorted trade dates. -/
def gapRows (daily : List DailyRow) (intraday : List Bar) (trade_dates : List ℕ) :
    List GapRow :=
  (sortedDistinct trade_dates).filterMap (gapRowForDate daily intraday)

/-! ## Hourly profile (analyze_hourly_profile): session usability filter -/

/-- The sessions analyze_hourly_profile iterates: for each distinct trade
date, its bars sorted by time, kept only when the session has at least 4
bars (the source's continue on len(group) < 4). -/
def hourlySessions (intraday : List Bar) (trade_dates : List ℕ) :
    List (ℕ × List Bar) :=
  (sortedDistinct trade_dates).filterMap (fun d =>
    if 4 ≤ (sessionBars intraday d).length then some (d, sessionBars intraday d)
    else none)

/-! ## Entry-timing search (analyze_5min_entry) -/

/-- One (date, entry_time, return_pct) record of analyze_5min_entry. -/
structure EntryRow where
  date : ℕ
  entry_time : ℕ
  return_pct : ℚ
  deriving DecidableEq

/-- The candidate entry times: 09:30 to 10:00 in 5-minute steps, then 10:15,
10:30 and 11:00, in minutes since midnight. -/
def entry_times : List ℕ :=
  [570, 575, 580, 585, 590, 595, 600, 615, 630, 660]

/-- Entry records of one session (bars already sorted by time): the day close
is the close of the last bar at or after 15:50, falling back to 15:00; each
candidate time uses the bar at exactly that time, else the first bar after
it; the return to the day close is direction-adjusted. -/
def entryReturnsForDay (g : List Bar) (short : Bool) (d : ℕ) : List EntryRow :=
  let late1 := g.filter (fun b => decide (950 ≤ b.time))
  let late := if late1 = [] then g.filter (fun b => decide (900 ≤ b.time)) else late1
  match late.getLast? with
  | none => []
  | some lb =>
    let day_close := lb.close
    entry_times.filterMap (fun et =>
      let exact_bars := g.filter (fun b => decide (b.time = et))
      let eb := if exact_bars = [] then (g.filter (fun b => decide (et ≤ b.time))).take 1
        else exact_bars
      match eb.head? with
      | none => none
      | some b =>
        let ret := (day_close / b.open_ - 1) * 100
        some ⟨d, et, if short then -ret else ret⟩)

/-- All entry records of analyze_5min_entry over the distinct trade dates. -/
def entryResults (intraday : List Bar) (trade_dates : List ℕ) (short : Bool) :
    List EntryRow :=
  (sortedDistinct trade_dates).flatMap
    (fun d => entryReturnsForDay (sessionBars intraday d) short d)

/-- Number of records for one candidate entry time. -/
def countFor (results : List EntryRow) (et : ℕ) : ℕ :=
  (results.filter (fun r => decide (r.entry_time = et))).length

/-- Mean return of one candidate entry time. -/
def meanFor (results : List EntryRow) (et : ℕ) : ℚ :=
  mean ((results.filter (fun r => decide (r.entry_time = et))).map (·.return_pct))

/-- Candidate times shown in the per-time table: only those with at least 3
records (the source's continue on len(subset) < 3). -/
def reportedTimes (results : List EntryRow) : List ℕ :=
  entry_times.filter (fun et => decide (3 ≤ countFor results et))

/-- The groupby keys of the best-entry computation: distinct entry times
present in the records, ascending. -/
def presentTimes (results : List EntryRow) : List ℕ :=
  sortedDistinct (results.map (·.entry_time))

/-- The reported optimal entry: idxmax of the mean return over all present
entry times (first key on ties), regardless of the 3-record minimum. -/
def bestEntry (results : List EntryRow) : Option ℕ :=
  (presentTimes results).argmax (meanFor results)

/-! ## Signal definitions -/

/-- Trigger dates of _signal_qqq_overbought before resolution: dates whose
RSI(10) exceeds 79 (a NaN warm-up value compares false). -/
def qqqSignalDates (df : List DailyRow) : List ℕ :=
  (List.range df.length).filterMap (fun i =>
    if optGT (tableRSI10 df i) 79 then some ((tableDates df).getD i 0) else none)

/-- The QQQ-overbought signal over an optionally missing table: an absent
table yields no dates; each trigger is resolved to the next date of the same
table, triggers without one are dropped. -/
def _signal_qqq_overbought (qqq : Option (List DailyRow)) : List ℕ :=
  match qqq with
  | none => []
  | some df =>
    (qqqSignalDates df).filterMap (fun d => resolveTradeDate d (tableDates df))

/-- Trigger dates of _signal_gld_usdu_double: the inner join of the two
tables on date, filtered to GLD RSI(10) > 79 and USDU RSI(10) < 25, in the
order of the left (GLD) table. -/
def gldUsduSignalDates (gld usdu : List DailyRow) : List ℕ :=
  (List.range gld.length).filterMap (fun i =>
    let d := (tableDates gld).getD i 0
    if decide (d ∈ tableDates usdu)
        && optGT (tableRSI10 gld i) 79
        && optLT (tableRSI10 usdu ((tableDates usdu).indexOf d)) 25
    then some d else none)

/-- The GLD/USDU double signal over optionally missing tables: a missing GLD
or USDU table yields no dates; when the SPY reference table is missing the
source returns the unresolved trigger dates; otherwise each trigger resolves
to the next SPY date. -/
def _signal_gld_usdu_double (gld usdu spy : Option (List DailyRow)) : List ℕ :=
  match gld with
  | none => []
  | some g =>
    match usdu with
    | none => []
    | some u =>
      let signal_dates := gldUsduSignalDates g u
      match spy with
      | none => signal_dates
      | some s => signal_dates.filterMap (fun d => resolveTradeDate d (tableDates s))

/-! ## Concrete tables used by witnesses and counterexamples -/

/-- Example daily table: two trading days. -/
def dailyEx : List DailyRow := [⟨0, 100⟩, ⟨1, 100⟩]

/-- Example intraday table: a single bar on date 1. -/
def barsEx : List Bar := [⟨1, 570, 98, 102⟩]

/-- Example intraday table: a two-bar session on date 1. -/
def barsEx2 : List Bar := [⟨1, 570, 98, 100⟩, ⟨1, 630, 100, 102⟩]

/-- Example 5-minute table: one session whose best candidate entry is 09:35
with a single record. -/
def barsEx5m : List Bar := [⟨1, 570, 100, 100⟩, ⟨1, 575, 84, 84⟩, ⟨1, 950, 105, 105⟩]

/-- Example GLD table: ten strictly rising closes on dates 0 to 9. -/
def gldEx : List DailyRow :=
  [⟨0, 1⟩, ⟨1, 2⟩, ⟨2, 3⟩, ⟨3, 4⟩, ⟨4, 5⟩, ⟨5, 6⟩, ⟨6, 7⟩, ⟨7, 8⟩, ⟨8, 9⟩, ⟨9, 10⟩]

/-- Example USDU table: ten strictly falling closes on dates 0 to 9. -/
def usduEx : List DailyRow :=
  [⟨0, 10⟩, ⟨1, 9⟩, ⟨2, 8⟩, ⟨3, 7⟩, ⟨4, 6⟩, ⟨5, 5⟩, ⟨6, 4⟩, ⟨7, 3⟩, ⟨8, 2⟩, ⟨9, 1⟩]

/-! ## Helper lemmas -/

/-- A find? hit on the source's next-date lookup is a member and is strictly
after the trigger. -/
theorem find_first_gt_mem {d : ℕ} {ref : List ℕ} {x : ℕ}
    (hx : ref.find? (fun y => decide (d < y)) = some x) :
    x ∈ ref ∧ d < x := by
  refine ⟨List.mem_of_find?_eq_some hx, ?_⟩
  have hp := List.find?_some hx
  simpa using hp

/-- On a strictly sorted reference series, a find? hit of the next-date
lookup is minimal among the members strictly after the trigger. -/
theorem find_first_gt_min {d : ℕ} : ∀ {ref : List ℕ} {x : ℕ},
    List.Sorted (· < ·) ref →
    ref.find? (fun y => decide (d < y)) = some x →
    ∀ y ∈ ref, d < y → x ≤ y := by
  intro ref
  induction ref with
  | nil => intro x _ hx; simp at hx
  | cons a l ih =>
    intro x hs hx y hy hdy
    by_cases hda : d < a
    · rw [List.find?_cons_of_pos _ (by simpa using hda)] at hx
      obtain rfl : a = x := by simpa using hx
      rcases List.mem_cons.mp hy with rfl | hyl
      · exact le_refl _
      · exact le_of_lt ((List.sorted_cons.mp hs).1 y hyl)
    · rw [List.find?_cons_of_neg _ (by simpa using hda)] at hx
      rcases List.mem_cons.mp hy with rfl | hyl
      · exact absurd hdy hda
      · exact ih (List.sorted_cons.mp hs).2 hx y hyl hdy

/-- Two trade-date lists with the same members normalise identically. -/
theorem sortedDistinct_eq_of_mem_iff {l1 l2 : List ℕ}
    (h : ∀ d, d ∈ l1 ↔ d ∈ l2) : sortedDistinct l1 = sortedDistinct l2 := by
  have hp : l1.dedup.Perm l2.dedup :=
    (List.perm_ext_iff_of_nodup (List.nodup_dedup l1) (List.nodup_dedup l2)).mpr
      (fun a => by simpa [List.mem_dedup] using h a)
  have hp2 : (sortedDistinct l1).Perm (sortedDistinct l2) :=
    ((List.perm_insertionSort _ _).trans hp).trans
      (List.perm_insertionSort _ _).symm
  exact List.eq_of_perm_of_sorted hp2
    (List.sorted_insertionSort _ _) (List.sorted_insertionSort _ _)

/-- Length of a filterMap whose function keeps exactly the entries
satisfying a predicate. -/
theorem length_filterMap_ite {α β : Type} (l : List α) (P : α → Prop)
    [DecidablePred P] (f : α → β) :
    (l.filterMap (fun x => if P x then some (f x) else none)).length =
      (l.filter (fun x => decide (P x))).length := by
  induction l with
  | nil => rfl
  | cons x xs ih =>
    by_cases h : P x <;> simp [List.filterMap_cons, List.filter_cons, h, ih]

/-- First components of a filterMap that pairs each kept entry with extra
data. -/
theorem map_fst_filterMap_ite {α β : Type} (l : List α) (P : α → Prop)
    [DecidablePred P] (f : α → β) :
    ((l.filterMap (fun x => if P x then some (x, f x) else none)).map Prod.fst) =
      l.filter (fun x => decide (P x)) := by
  induction l with
  | nil => rfl
  | cons x xs ih =>
    by_cases h : P x <;> simp [List.filterMap_cons, List.filter_cons, h, ih]

/-! ## Theorems for claim C1 -/

/-- C1: per trade date, the decomposition computes, directly from source
prices, overnight = sessionOpen/prevClose - 1, intraday =
sessionClose/sessionOpen - 1 and total = sessionClose/prevClose - 1 (in
percent, all three negated uniformly for a short-direction signal), and for
a long-direction signal the reported fractional figures satisfy the
compounding identity |total - ((1+overnight)(1+intraday) - 1)| < 1e-9 (the
difference is exactly 0). For short-direction signals the identity fails in
general; see the counterexample. -/
theorem decompose_formulas_and_compounding (pc o c : ℚ) (short : Bool)
    (hpc : pc ≠ 0) (ho : o ≠ 0) :
    (decompose pc o c short).1 = (if short then (-1 : ℚ) else 1) * ((o / pc - 1) * 100) ∧
    (decompose pc o c short).2.1 = (if short then (-1 : ℚ) else 1) * ((c / o - 1) * 100) ∧
    (decompose pc o c short).2.2 = (if short then (-1 : ℚ) else 1) * ((c / pc - 1) * 100) ∧
    (short = false →
      |(decompose pc o c short).2.2 / 100 -
          ((1 + (decompose pc o c short).1 / 100) *
            (1 + (decompose pc o c short).2.1 / 100) - 1)| < 1 / 1000000000) := by
  cases short with
  | false =>
    refine ⟨by simp [decompose], by simp [decompose], by simp [decompose],
      fun _ => ?_⟩
    simp only [decompose, Bool.false_eq_true, if_false]
    have key : (c / pc - 1) * 100 / 100 -
        ((1 + (o / pc - 1) * 100 / 100) * (1 + (c / o - 1) * 100 / 100) - 1) = 0 := by
      field_simp
      ring
    rw [key]
    norm_num
  | true =>
    refine ⟨by simp [decompose], by simp [decompose], by simp [decompose],
      fun hcontra => by simp at hcontra⟩

/-- Witness for C1: at prevClose 100, sessionOpen 98, sessionClose 102 in
long direction, the compounding tolerance holds. -/
theorem decompose_formulas_and_compounding_witness :
    |(decompose 100 98 102 false).2.2 / 100 -
        ((1 + (decompose 100 98 102 false).1 / 100) *
          (1 + (decompose 100 98 102 false).2.1 / 100) - 1)| < 1 / 1000000000 :=
  (decompose_formulas_and_compounding 100 98 102 false (by norm_num)
    (by norm_num)).2.2.2 rfl

/-- C1 counterexample: for a short-direction signal the reported figures at
prevClose 100, sessionOpen 98, sessionClose 102 miss the compounding
identity by 2/1225, far above the 1e-9 tolerance the claim states for all
reported figures. -/
theorem decompose_short_compounding_cex :
    (1 : ℚ) / 1000000000 ≤
      |(decompose 100 98 102 true).2.2 / 100 -
          ((1 + (decompose 100 98 102 true).1 / 100) *
            (1 + (decompose 100 98 102 true).2.1 / 100) - 1)| := by
  norm_num [decompose]
  rw [abs_of_pos (by norm_num : (0 : ℚ) < 2 / 1225)]
  norm_num

/-! ## Theorems for claim C3 -/

/-- C3: on a strictly sorted reference series, trade-date resolution returns
the first date strictly after the trigger (a member, strictly after, and at
most every member strictly after), and when every date of the series is at
most the trigger (in particular when the trigger is the last available day)
no trade date is produced, so nothing is handed to the decomposition. -/
theorem resolveTradeDate_spec (d : ℕ) (ref : List ℕ)
    (hs : List.Sorted (· < ·) ref) :
    (∀ x, resolveTradeDate d ref = some x →
      x ∈ ref ∧ d < x ∧ ∀ y ∈ ref, d < y → x ≤ y) ∧
    ((∀ y ∈ ref, y ≤ d) → resolveTradeDate d ref = none) := by
  constructor
  · intro x hx
    obtain ⟨hmem, hdx⟩ := find_first_gt_mem hx
    exact ⟨hmem, hdx, find_first_gt_min hs hx⟩
  · intro h
    exact List.find?_eq_none.mpr (fun y hy => by
      simpa using Nat.not_lt.mpr (h y hy))

/-- Witness for C3: trigger 9 is the last date of the series [5, 7, 9], so
no trade date is produced. -/
theorem resolveTradeDate_spec_witness : resolveTradeDate 9 [5, 7, 9] = none :=
  (resolveTradeDate_spec 9 [5, 7, 9] (by decide)).2 (by decide)

/-! ## Theorems for claim C4 -/

/-- C4: the gap classifier assigns the pattern determined by the sign pair
of (overnight, intraday): negative gap with positive intraday is
GapDownReverseUp, negative gap otherwise GapDownContinueDown, non-negative
gap with positive intraday GapUpContinueUp, non-negative gap otherwise
GapUpReverseDown; in particular a zero gap lands in the Up branch, so a zero
gap with negative intraday classifies GapUpReverseDown. -/
theorem classifyGap_sign_spec (g i : ℚ) :
    (g < 0 → 0 < i → classifyGap g i = GapPattern.GapDownReverseUp) ∧
    (g < 0 → i ≤ 0 → classifyGap g i = GapPattern.GapDownContinueDown) ∧
    (0 ≤ g → 0 < i → classifyGap g i = GapPattern.GapUpContinueUp) ∧
    (0 ≤ g → i ≤ 0 → classifyGap g i = GapPattern.GapUpReverseDown) := by
  refine ⟨fun h1 h2 => ?_, fun h1 h2 => ?_, fun h1 h2 => ?_, fun h1 h2 => ?_⟩ <;>
    simp only [classifyGap]
  · rw [if_pos ⟨h1, h2⟩]
  · rw [if_neg (fun hc => (not_lt.mpr h2) hc.2), if_pos ⟨h1, h2⟩]
  · rw [if_neg (fun hc => (not_lt.mpr h1) hc.1),
      if_neg (fun hc => (not_lt.mpr h1) hc.1), if_pos ⟨h1, h2⟩]
  · rw [if_neg (fun hc => (not_lt.mpr h1) hc.1),
      if_neg (fun hc => (not_lt.mpr h1) hc.1),
      if_neg (fun hc => (not_lt.mpr h2) hc.2)]

/-- Witness for C4 at the spec's example inputs: gap -1.5 percent with
intraday +2 percent, and the zero-gap boundary with intraday -0.5 percent. -/
theorem classifyGap_sign_spec_witness :
    classifyGap (-3 / 2) 2 = GapPattern.GapDownReverseUp ∧
    classifyGap 0 (-1 / 2) = GapPattern.GapUpReverseDown :=
  ⟨(classifyGap_sign_spec (-3 / 2) 2).1 (by norm_num) (by norm_num),
   (classifyGap_sign_spec 0 (-1 / 2)).2.2.2 (by norm_num) (by norm_num)⟩

/-! ## Theorems for claim C9 -/

/-- C9: in the single-day aggregate, whenever the mean total return is
non-zero each component's contribution is mean(component)/mean(total)*100,
and when the mean total return is zero both contributions are reported as
exactly 50. -/
theorem contributions_spec (rows : List ONRow) :
    (mean (rows.map (·.total_pct)) ≠ 0 →
      contributions rows =
        (mean (rows.map (·.overnight_pct)) / mean (rows.map (·.total_pct)) * 100,
         mean (rows.map (·.intraday_pct)) / mean (rows.map (·.total_pct)) * 100)) ∧
    (mean (rows.map (·.total_pct)) = 0 → contributions rows = (50, 50)) := by
  constructor
  · intro h
    simp [contributions, h]
  · intro h
    simp [contributions, h]

/-- Witness for C9: a single trade date whose total return is zero gets the
50/50 fallback. -/
theorem contributions_spec_witness :
    contributions [⟨0, 1, -1, 0⟩] = (50, 50) :=
  (contributions_spec [⟨0, 1, -1, 0⟩]).2 (by norm_num [mean])

/-! ## RSI helper lemmas -/

/-- Length of the gain-series tail. -/
theorem gainsAux_length (prev : ℚ) (l : List ℚ) :
    (gainsAux prev l).length = l.length := by
  induction l generalizing prev with
  | nil => rfl
  | cons p rest ih => simp [gainsAux, ih]

/-- Length of the loss-series tail. -/
theorem lossesAux_length (prev : ℚ) (l : List ℚ) :
    (lossesAux prev l).length = l.length := by
  induction l generalizing prev with
  | nil => rfl
  | cons p rest ih => simp [lossesAux, ih]

/-- Entries before the warm-up are none. -/
theorem rsi_none_of_warmup {prices : List ℚ} {period i : ℕ}
    (h : i + 1 < period) : calculate_rsi_wilder prices period i = none := by
  unfold calculate_rsi_wilder
  rw [if_pos (Or.inl h)]

/-- On strictly rising prices every loss entry is 0. -/
theorem lossesAux_of_chain {p : ℚ} {l : List ℚ}
    (h : List.Chain' (· < ·) (p :: l)) :
    lossesAux p l = List.replicate l.length 0 := by
  induction l generalizing p with
  | nil => rfl
  | cons q rest ih =>
    obtain ⟨hpq, h2⟩ := List.chain'_cons.mp h
    simp [lossesAux, if_neg (not_lt.mpr (le_of_lt hpq)), ih h2,
      List.replicate_succ]

/-- On strictly rising prices every gain entry is positive. -/
theorem gainsAux_pos_of_chain {p : ℚ} {l : List ℚ}
    (h : List.Chain' (· < ·) (p :: l)) :
    ∀ x ∈ gainsAux p l, 0 < x := by
  induction l generalizing p with
  | nil => intro x hx; simp [gainsAux] at hx
  | cons q rest ih =>
    obtain ⟨hpq, h2⟩ := List.chain'_cons.mp h
    intro x hx
    rw [gainsAux, if_pos hpq] at hx
    rcases List.mem_cons.mp hx with rfl | hxl
    · exact sub_pos.mpr hpq
    · exact ih h2 x hxl

/-- On strictly falling prices every gain entry is 0. -/
theorem gainsAux_of_chain_gt {p : ℚ} {l : List ℚ}
    (h : List.Chain' (· > ·) (p :: l)) :
    gainsAux p l = List.replicate l.length 0 := by
  induction l generalizing p with
  | nil => rfl
  | cons q rest ih =>
    obtain ⟨hpq, h2⟩ := List.chain'_cons.mp h
    simp [gainsAux, if_neg (not_lt.mpr (le_of_lt hpq)), ih h2,
      List.replicate_succ]

/-- On strictly falling prices every loss entry is positive. -/
theorem lossesAux_pos_of_chain_gt {p : ℚ} {l : List ℚ}
    (h : List.Chain' (· > ·) (p :: l)) :
    ∀ x ∈ lossesAux p l, 0 < x := by
  induction l generalizing p with
  | nil => intro x hx; simp [lossesAux] at hx
  | cons q rest ih =>
    obtain ⟨hpq, h2⟩ := List.chain'_cons.mp h
    intro x hx
    rw [lossesAux, if_pos hpq] at hx
    rcases List.mem_cons.mp hx with rfl | hxl
    · exact sub_pos.mpr hpq
    · exact ih h2 x hxl

/-- The running exponential average of an all-zero series is all zero. -/
theorem ewmAux_replicate_zero (a : ℚ) (n : ℕ) :
    ewmAux a 0 (List.replicate n 0) = List.replicate (n + 1) 0 := by
  induction n with
  | zero => rfl
  | succ m ih =>
    rw [List.replicate_succ, ewmAux]
    have hz : (1 - a) * 0 + a * 0 = 0 := by ring
    rw [hz, ih]
    simp [List.replicate_succ]

/-- Indexing an all-zero list with default zero gives zero. -/
theorem getD_replicate_zero (n i : ℕ) :
    (List.replicate n (0 : ℚ)).getD i 0 = 0 := by
  induction n generalizing i with
  | zero => cases i <;> rfl
  | succ m ih =>
    cases i with
    | zero => rfl
    | succ j => rw [List.replicate_succ, List.getD_cons_succ, ih]

/-- The first output of the running exponential average is its seed. -/
theorem ewmAux_head (a acc : ℚ) (l : List ℚ) :
    (ewmAux a acc l).getD 0 0 = acc := by
  cases l <;> rfl

/-- With 0 < alpha <= 1, a non-negative seed and positive series entries,
every output of the running exponential average past the seed is positive. -/
theorem ewmAux_pos {a : ℚ} (ha : 0 < a) (ha1 : a ≤ 1) :
    ∀ (l : List ℚ) (acc : ℚ), 0 ≤ acc → (∀ x ∈ l, 0 < x) →
      ∀ j < l.length, 0 < (ewmAux a acc l).getD (j + 1) 0 := by
  intro l
  induction l with
  | nil => intro acc _ _ j hj; simp at hj
  | cons x rest ih =>
    intro acc hacc hl j hj
    have hx : 0 < x := hl x (List.mem_cons_self x rest)
    have hacc2 : 0 < (1 - a) * acc + a * x :=
      add_pos_of_nonneg_of_pos (mul_nonneg (sub_nonneg.mpr ha1) hacc)
        (mul_pos ha hx)
    rw [ewmAux, List.getD_cons_succ]
    cases j with
    | zero => rw [ewmAux_head]; exact hacc2
    | succ k =>
      exact ih _ (le_of_lt hacc2) (fun y hy => hl y (List.mem_cons_of_mem x hy))
        k (by simpa using Nat.lt_of_succ_lt_succ hj)

/-- On strictly rising prices the smoothed average loss is zero at every
index. -/
theorem avg_loss_eq_zero_of_chain {prices : List ℚ}
    (h : List.Chain' (· < ·) prices) (period i : ℕ) :
    avg_loss prices period i = 0 := by
  unfold avg_loss
  cases prices with
  | nil => rfl
  | cons p rest =>
    rw [losses, lossesAux_of_chain h]
    show (ewmAux _ 0 (List.replicate rest.length 0)).getD i 0 = 0
    rw [ewmAux_replicate_zero, getD_replicate_zero]

/-- On strictly falling prices the smoothed average gain is zero at every
index. -/
theorem avg_gain_eq_zero_of_chain_gt {prices : List ℚ}
    (h : List.Chain' (· > ·) prices) (period i : ℕ) :
    avg_gain prices period i = 0 := by
  unfold avg_gain
  cases prices with
  | nil => rfl
  | cons p rest =>
    rw [gains, gainsAux_of_chain_gt h]
    show (ewmAux _ 0 (List.replicate rest.length 0)).getD i 0 = 0
    rw [ewmAux_replicate_zero, getD_replicate_zero]

/-- On strictly rising prices the smoothed average gain is positive at every
in-range index past the seed. -/
theorem avg_gain_pos_of_chain {prices : List ℚ}
    (h : List.Chain' (· < ·) prices) {period : ℕ} (hp : 1 ≤ period) {i : ℕ}
    (h1 : 1 ≤ i) (h2 : i < prices.length) :
    0 < avg_gain prices period i := by
  have ha : 0 < 1 / ((period : ℕ) : ℚ) :=
    one_div_pos.mpr (by exact_mod_cast Nat.pos_of_ne_zero (by omega))
  have ha1 : 1 / ((period : ℕ) : ℚ) ≤ 1 := by
    rw [div_le_one (by exact_mod_cast Nat.pos_of_ne_zero (by omega))]
    exact_mod_cast hp
  unfold avg_gain
  cases prices with
  | nil => simp at h2
  | cons p rest =>
    obtain ⟨j, rfl⟩ : ∃ j, i = j + 1 := ⟨i - 1, by omega⟩
    rw [gains]
    show 0 < (ewmAux _ 0 (gainsAux p rest)).getD (j + 1) 0
    exact ewmAux_pos ha ha1 (gainsAux p rest) 0 le_rfl (gainsAux_pos_of_chain h)
      j (by rw [gainsAux_length]; simpa using h2)

/-- On strictly falling prices the smoothed average loss is positive at
every in-range index past the seed. -/
theorem avg_loss_pos_of_chain_gt {prices : List ℚ}
    (h : List.Chain' (· > ·) prices) {period : ℕ} (hp : 1 ≤ period) {i : ℕ}
    (h1 : 1 ≤ i) (h2 : i < prices.length) :
    0 < avg_loss prices period i := by
  have ha : 0 < 1 / ((period : ℕ) : ℚ) :=
    one_div_pos.mpr (by exact_mod_cast Nat.pos_of_ne_zero (by omega))
  have ha1 : 1 / ((period : ℕ) : ℚ) ≤ 1 := by
    rw [div_le_one (by exact_mod_cast Nat.pos_of_ne_zero (by omega))]
    exact_mod_cast hp
  unfold avg_loss
  cases prices with
  | nil => simp at h2
  | cons p rest =>
    obtain ⟨j, rfl⟩ : ∃ j, i = j + 1 := ⟨i - 1, by omega⟩
    rw [losses]
    show 0 < (ewmAux _ 0 (lossesAux p rest)).getD (j + 1) 0
    exact ewmAux_pos ha ha1 (lossesAux p rest) 0 le_rfl
      (lossesAux_pos_of_chain_gt h) j (by rw [lossesAux_length]; simpa using h2)

/-- RSI(10) after warm-up on a strictly rising price list is exactly 100
(zero average loss, positive average gain). -/
theorem rsi_eq_100_of_chain {prices : List ℚ}
    (h : List.Chain' (· < ·) prices) {i : ℕ} (h9 : 9 ≤ i)
    (hlen : i < prices.length) :
    calculate_rsi_wilder prices 10 i = some 100 := by
  have hguard : ¬ (i + 1 < 10 ∨ prices.length ≤ i) := by omega
  have hl0 : avg_loss prices 10 i = 0 := avg_loss_eq_zero_of_chain h 10 i
  have hg : 0 < avg_gain prices 10 i :=
    avg_gain_pos_of_chain h (by norm_num) (by omega) hlen
  unfold calculate_rsi_wilder
  rw [if_neg hguard, hl0, if_pos rfl, if_neg (ne_of_gt hg)]

/-- RSI(10) after warm-up on a strictly falling price list is exactly 0
(zero average gain, positive average loss). -/
theorem rsi_eq_zero_of_chain_gt {prices : List ℚ}
    (h : List.Chain' (· > ·) prices) {i : ℕ} (h9 : 9 ≤ i)
    (hlen : i < prices.length) :
    calculate_rsi_wilder prices 10 i = some 0 := by
  have hguard : ¬ (i + 1 < 10 ∨ prices.length ≤ i) := by omega
  have hg0 : avg_gain prices 10 i = 0 := avg_gain_eq_zero_of_chain_gt h 10 i
  have hl : 0 < avg_loss prices 10 i :=
    avg_loss_pos_of_chain_gt h (by norm_num) (by omega) hlen
  unfold calculate_rsi_wilder
  rw [if_neg hguard, if_neg (ne_of_gt hl), hg0]
  norm_num

/-! ## Theorems for claim C5 -/

/-- C5: for a strictly increasing close sequence, every RSI(10) value after
the warm-up equals 100, hence exceeds 90 and never exceeds 100 (the zero
average loss yields exactly 100 without dividing by zero); for a strictly
decreasing sequence every post-warm-up value equals 0, hence is below 10 and
never below 0. -/
theorem rsi_monotone_bounds (prices : List ℚ) (i : ℕ) (h9 : 9 ≤ i)
    (hlen : i < prices.length) :
    (List.Chain' (· < ·) prices →
      avg_loss prices 10 i = 0 ∧
      calculate_rsi_wilder prices 10 i = some 100 ∧
      ∀ r, calculate_rsi_wilder prices 10 i = some r → 90 < r ∧ r ≤ 100) ∧
    (List.Chain' (· > ·) prices →
      calculate_rsi_wilder prices 10 i = some 0 ∧
      ∀ r, calculate_rsi_wilder prices 10 i = some r → 0 ≤ r ∧ r < 10) := by
  constructor
  · intro hc
    have heq := rsi_eq_100_of_chain hc h9 hlen
    refine ⟨avg_loss_eq_zero_of_chain hc 10 i, heq, fun r hr => ?_⟩
    rw [heq] at hr
    obtain rfl : (100 : ℚ) = r := Option.some_inj.mp hr
    norm_num
  · intro hc
    have heq := rsi_eq_zero_of_chain_gt hc h9 hlen
    refine ⟨heq, fun r hr => ?_⟩
    rw [heq] at hr
    obtain rfl : (0 : ℚ) = r := Option.some_inj.mp hr
    norm_num

/-- Witness for C5: concrete check on ten rising and ten falling closes at
the first post-warm-up index. -/
theorem rsi_monotone_bounds_witness :
    calculate_rsi_wilder [0, 1, 2, 3, 4, 5, 6, 7, 8, 9] 10 9 = some 100 ∧
    calculate_rsi_wilder [9, 8, 7, 6, 5, 4, 3, 2, 1, 0] 10 9 = some 0 :=
  ⟨((rsi_monotone_bounds [0, 1, 2, 3, 4, 5, 6, 7, 8, 9] 9 (by norm_num)
      (by norm_num)).1
      (by norm_num [List.chain'_cons, List.chain'_singleton])).2.1,
   ((rsi_monotone_bounds [9, 8, 7, 6, 5, 4, 3, 2, 1, 0] 9 (by norm_num)
      (by norm_num)).2
      (by norm_num [List.chain'_cons, List.chain'_singleton])).1⟩

/-! ## Theorems for claim C2 -/

/-- C2 amended: in the multi-day decomposition the walk forward does stop
early at the end of the daily table (every walked position is in range), but
a trade date with fewer than H future positions is not excluded: every
single-day result row whose date occurs in the daily table contributes
exactly one entry to the H-day aggregate, early stop or not. -/
theorem multiDay_partial_inclusion (daily : List DailyRow) (intraday : List Bar)
    (short : Bool) (rows : List ONRow) (H : ℕ) :
    (multiDayRows daily intraday short rows H).length =
      (rows.filter (fun r => decide (r.date ∈ dailyDates daily))).length ∧
    ∀ td_idx : ℕ, ∀ j ∈ holdIndices td_idx H daily.length, j < daily.length := by
  constructor
  · unfold multiDayRows
    exact length_filterMap_ite rows _ _
  · intro td_idx j hj
    have hp := List.mem_takeWhile_imp hj
    simpa using hp

/-- Witness for C2: concrete instance of the early-stop bound on the
two-day example table. -/
theorem multiDay_partial_inclusion_witness : (1 : ℕ) < dailyEx.length :=
  (multiDay_partial_inclusion dailyEx barsEx false [] 2).2 1 1 (by decide)

/-- C2 counterexample: in the two-day example table the trade date at the
last index has only one future position, fewer than the holding period
H = 2, yet the 2-day aggregate still receives one entry for it instead of
excluding the date. -/
theorem multiDay_early_stop_cex :
    dailyEx.length < (dailyDates dailyEx).indexOf 1 + 2 ∧
    (multiDayRows dailyEx barsEx false (onRows dailyEx barsEx false [1]) 2).length
      = 1 := by
  decide

/-! ## Theorems for claim C6 -/

/-- C6 amended: the hourly profile keeps exactly the trade dates whose
session has at least the hard-coded minimum of 4 bars, but the decomposition
analysis keeps every date whose session is merely non-empty (and has a prior
daily close), so the 4-bar minimum does not apply to every
intraday-dependent analysis. -/
theorem min_bar_filter_spec (daily : List DailyRow) (intraday : List Bar)
    (short : Bool) (trade_dates : List ℕ) (td : ℕ) :
    (hourlySessions intraday trade_dates).map Prod.fst =
      (sortedDistinct trade_dates).filter
        (fun d => decide (4 ≤ (sessionBars intraday d).length)) ∧
    ((decomposeDate daily intraday short td).isSome ↔
      0 < (sessionBars intraday td).length ∧ (prevDailyRow daily td).isSome) := by
  constructor
  · unfold hourlySessions
    exact map_fst_filterMap_ite _ _ _
  · cases hb : sessionBars intraday td with
    | nil => simp [decomposeDate, hb]
    | cons b bs =>
      have hlast : ∃ lb, (b :: bs).getLast? = some lb :=
        Option.isSome_iff_exists.mp (List.getLast?_isSome.mpr (by simp))
      obtain ⟨lb, hlb⟩ := hlast
      cases hp : prevDailyRow daily td with
      | none => simp [decomposeDate, hb, hlb, hp]
      | some prev => simp [decomposeDate, hb, hlb, hp]

/-- C6 counterexample: date 1 carries a session of only 2 bars, below the
minimum bar count of 4, yet the decomposition analysis still uses it, while
the hourly profile drops it; the date is used by one intraday-dependent
analysis and not the other. -/
theorem min_bar_filter_cex :
    (decomposeDate dailyEx barsEx2 false 1).isSome = true ∧
    (sessionBars barsEx2 1).length = 2 ∧
    (hourlySessions barsEx2 [1]).map Prod.fst = [] := by
  decide

/-! ## Theorems for claim C10 -/

/-- C10: the decomposition and gap-pattern analyses normalise the incoming
trade-date list to its sorted distinct dates (a Nodup list, so each distinct
calendar date is processed at most once), and their per-date rows and
aggregates are invariant under duplication and reordering of the input
list. -/
theorem dedup_invariance (daily : List DailyRow) (intraday : List Bar)
    (short : Bool) (l1 l2 : List ℕ) (h : ∀ d, d ∈ l1 ↔ d ∈ l2) :
    (sortedDistinct l1).Nodup ∧
    onRows daily intraday short l1 = onRows daily intraday short l2 ∧
    gapRows daily intraday l1 = gapRows daily intraday l2 ∧
    contributions (onRows daily intraday short l1) =
      contributions (onRows daily intraday short l2) := by
  have he := sortedDistinct_eq_of_mem_iff h
  have hrows : onRows daily intraday short l1 = onRows daily intraday short l2 := by
    unfold onRows
    rw [he]
  refine ⟨?_, hrows, ?_, ?_⟩
  · exact (List.perm_insertionSort _ _).nodup_iff.mpr (List.nodup_dedup l1)
  · unfold gapRows
    rw [he]
  · rw [hrows]

/-- Witness for C10: a duplicated, reordered trade-date list gives the same
decomposition rows on the example tables, and the normalised dates are
duplicate-free. -/
theorem dedup_invariance_witness :
    onRows dailyEx barsEx false [1, 1, 0] = onRows dailyEx barsEx false [0, 1] ∧
    (sortedDistinct [1, 1, 0]).Nodup := by
  have h := dedup_invariance dailyEx barsEx false [1, 1, 0] [0, 1]
    (by intro d; simp [List.mem_cons]; tauto)
  exact ⟨h.2.1, h.1⟩

/-! ## Theorems for claim C7 -/

/-- C7 amended: a candidate entry time appears in the per-time table exactly
when it has at least 3 per-date records (the hard-coded minimum), but the
reported optimal entry is the idxmax of the mean direction-adjusted return
over all present candidate times regardless of that minimum, so the optimum
is the maximum over every candidate with at least one record, reported ones
or not. -/
theorem entry_report_spec (results : List EntryRow) :
    (∀ et, et ∈ reportedTimes results ↔
      et ∈ entry_times ∧ 3 ≤ countFor results et) ∧
    (∀ t, bestEntry results = some t →
      t ∈ presentTimes results ∧
      ∀ s ∈ presentTimes results, meanFor results s ≤ meanFor results t) := by
  constructor
  · intro et
    simp [reportedTimes, List.mem_filter]
  · intro t ht
    rw [bestEntry] at ht
    have hmem : t ∈ presentTimes results :=
      List.argmax_mem (Option.mem_def.mpr ht)
    refine ⟨hmem, fun s hs => ?_⟩
    exact not_lt.mp (List.not_lt_of_mem_argmax hs (Option.mem_def.mpr ht))

/-- Witness for C7: on a single-record result set the optimal entry is its
only candidate and realises the maximal mean. -/
theorem entry_report_spec_witness :
    570 ∈ presentTimes [⟨0, 570, 1⟩] ∧
    meanFor [⟨0, 570, 1⟩] 570 ≤ meanFor [⟨0, 570, 1⟩] 570 := by
  have h := (entry_report_spec [⟨0, 570, 1⟩]).2 570 rfl
  exact ⟨h.1, h.2 570 h.1⟩

/-- C7 counterexample: from a single qualifying session every candidate
entry time has exactly one record, so no candidate reaches the 3-record
reporting minimum and the table is empty, yet a best entry (09:35) is still
reported as optimal with a single record, not ranked among reported
candidates. -/
theorem entry_below_min_optimal_cex :
    reportedTimes (entryResults barsEx5m [1] false) = [] ∧
    bestEntry (entryResults barsEx5m [1] false) = some 575 ∧
    countFor (entryResults barsEx5m [1] false) 575 = 1 := by
  refine ⟨by decide, ?_, by decide⟩
  have hres : entryResults barsEx5m [1] false =
      [⟨1, 570, 5⟩, ⟨1, 575, 25⟩, ⟨1, 580, 0⟩, ⟨1, 585, 0⟩, ⟨1, 590, 0⟩,
       ⟨1, 595, 0⟩, ⟨1, 600, 0⟩, ⟨1, 615, 0⟩, ⟨1, 630, 0⟩, ⟨1, 660, 0⟩] := by
    norm_num [entryResults, entryReturnsForDay, sessionBars, sortedDistinct,
      entry_times, barsEx5m, List.insertionSort, List.orderedInsert,
      List.dedup, List.filter, List.filterMap, List.take]
  rw [hres]
  norm_num [bestEntry, presentTimes, sortedDistinct, meanFor, mean,
    List.insertionSort, List.orderedInsert, List.dedup, List.argmax,
    List.argAux, List.filter, List.foldl]

/-! ## Theorems for claim C8 -/

/-- C8 amended: evaluation of the embedded signals is total and a missing
predicate ticker (QQQ; GLD or USDU) yields an empty result, but when only
the separate SPY reference table used for trade-date resolution is missing,
the GLD/USDU signal returns its unresolved trigger dates, which need not be
empty; see the counterexample. -/
theorem signals_missing_data (u s g : Option (List DailyRow))
    (gt ut : List DailyRow) :
    _signal_qqq_overbought none = [] ∧
    _signal_gld_usdu_double none u s = [] ∧
    _signal_gld_usdu_double g none s = [] ∧
    _signal_gld_usdu_double (some gt) (some ut) none = gldUsduSignalDates gt ut := by
  refine ⟨rfl, rfl, ?_, rfl⟩
  cases g <;> rfl

/-- C8 counterexample: with GLD and USDU data present and producing the
trigger date 9, but the SPY reference table missing, the signal returns the
non-empty unresolved trigger list [9] instead of an empty result. -/
theorem signal_missing_reference_cex :
    _signal_gld_usdu_double (some gldEx) (some usduEx) none = [9] := by
  have hg : tableRSI10 gldEx 9 = some 100 := by
    have hc : List.Chain' (· < ·) (gldEx.map (·.close)) := by
      norm_num [gldEx, List.chain'_cons, List.chain'_singleton]
    exact rsi_eq_100_of_chain hc (by norm_num) (by norm_num [gldEx])
  have hu : tableRSI10 usduEx 9 = some 0 := by
    have hc : List.Chain' (· > ·) (usduEx.map (·.close)) := by
      norm_num [usduEx, List.chain'_cons, List.chain'_singleton]
    exact rsi_eq_zero_of_chain_gt hc (by norm_num) (by norm_num [usduEx])
  have h0 : tableRSI10 gldEx 0 = none := rsi_none_of_warmup (by norm_num)
  have h1 : tableRSI10 gldEx 1 = none := rsi_none_of_warmup (by norm_num)
  have h2 : tableRSI10 gldEx 2 = none := rsi_none_of_warmup (by norm_num)
  have h3 : tableRSI10 gldEx 3 = none := rsi_none_of_warmup (by norm_num)
  have h4 : tableRSI10 gldEx 4 = none := rsi_none_of_warmup (by norm_num)
  have h5 : tableRSI10 gldEx 5 = none := rsi_none_of_warmup (by norm_num)
  have h6 : tableRSI10 gldEx 6 = none := rsi_none_of_warmup (by norm_num)
  have h7 : tableRSI10 gldEx 7 = none := rsi_none_of_warmup (by norm_num)
  have h8 : tableRSI10 gldEx 8 = none := rsi_none_of_warmup (by norm_num)
  have hdg : tableDates gldEx = [0, 1, 2, 3, 4, 5, 6, 7, 8, 9] := rfl
  have hdu : tableDates usduEx = [0, 1, 2, 3, 4, 5, 6, 7, 8, 9] := rfl
  show gldUsduSignalDates gldEx usduEx = [9]
  rw [gldUsduSignalDates,
    show List.range gldEx.length = [0, 1, 2, 3, 4, 5, 6, 7, 8, 9] from rfl]
  norm_num [List.filterMap, optGT, optLT, hdg, hdu,
    h0, h1, h2, h3, h4, h5, h6, h7, h8, hg, hu]

end MarketSignals
